import Mathlib

/-!
Verification of the Orbis retrieval-quality evaluation harness.

This file gives a shallow embedding, in Lean 4, of the evaluation harness of the
Orbis backend (chunker, embedding-provider construction, ground-truth generation,
content-addressed remapping, retrieval evaluator, benchmark orchestration) and
proves or refutes the specification claims about it.

Conventions of the embedding:

* Python lists become `List`, dictionaries become association lists or functions,
  `None`/exceptions become `Option`/`Except`.
* Python floats are modelled as rationals (`ℚ`): every arithmetic operation the
  harness performs on metric values (sums of reciprocal ranks, ratios of counts)
  is exact at the small scales involved, so `ℚ` is a faithful model of the
  values the code computes.
* Network backends (embedding servers, the LLM) are modelled as explicit function
  parameters; a call that can raise is a function into `Option`/`Except`.
-/

namespace Orbis

/--
Python `range(0, stop, step)` for an integer `step`, as used by
`RegulationService.chunk_document`: raises `ValueError` when `step = 0`,
is empty when `step < 0` (counting down from 0 towards a positive bound
yields nothing), and otherwise enumerates `0, step, 2*step, ...` strictly
below `stop`.
-/
def pyRangeZero (stop : Nat) (step : Int) : Except String (List Nat) :=
  if step = 0 then .error "range() arg 3 must not be zero"
  else if step < 0 then .ok []
  else .ok ((List.range ((stop + step.toNat - 1) / step.toNat)).map (fun k => k * step.toNat))

/--
The word-window split performed by `RegulationService.chunk_document`
(src/api/services/regulation_service.py, lines 26-40): `chunk_size` is first
capped at 150 words, then window `i` is the Python slice
`words[i : i + chunk_size]` for `i in range(0, len(words), chunk_size - overlap)`.
The element type is abstract: a word is an opaque token.
-/
def chunkWindows {α : Type} (words : List α) (chunk_size overlap : Nat) :
    Except String (List (List α)) :=
  let cs := if chunk_size > 150 then 150 else chunk_size
  (pyRangeZero words.length ((cs : Int) - (overlap : Int))).map
    (fun idxs => idxs.map (fun i => (words.drop i).take cs))

end Orbis

namespace Orbis

/-- Unfolding of `chunkWindows` in the well-formed case `overlap < chunk_size ≤ 150`. -/
theorem chunkWindows_pos {α : Type} (words : List α) (chunk_size overlap : Nat)
    (hlt : overlap < chunk_size) (hcap : chunk_size ≤ 150) :
    chunkWindows words chunk_size overlap =
      .ok ((List.range ((words.length + (chunk_size - overlap) - 1) / (chunk_size - overlap))).map
        (fun k => (words.drop (k * (chunk_size - overlap))).take chunk_size)) := by
  unfold chunkWindows pyRangeZero
  have hcs : ¬ chunk_size > 150 := by omega
  simp only [hcs, if_false]
  have hstep : (chunk_size : Int) - (overlap : Int) = ((chunk_size - overlap : Nat) : Int) := by
    omega
  rw [hstep]
  have hpos : (0 : Int) < ((chunk_size - overlap : Nat) : Int) := by
    have : 0 < chunk_size - overlap := by omega
    exact_mod_cast this
  rw [if_neg (by omega), if_neg (by omega)]
  simp only [Int.toNat_natCast, Except.map, List.map_map]
  rfl

/--
Claim C3. For every document text and parameters with `overlap < chunk_size ≤ 150`,
chunking produces windows in ascending order where window `i` covers words
`[i*step, i*step + chunk_size)` with `step = chunk_size - overlap`, and the last
window is simply the remaining words (it may be shorter than `chunk_size`);
in particular a 250-word document with `chunk_size = 100` and `overlap = 10`
yields exactly 3 chunks at word offsets 0, 90, 180 with lengths 100, 100, 70.
-/
theorem chunk_document_window_layout :
    (∀ {α : Type} (words : List α) (chunk_size overlap : Nat),
        overlap < chunk_size → chunk_size ≤ 150 →
        ∃ L, chunkWindows words chunk_size overlap = .ok L ∧
          L.length = (words.length + (chunk_size - overlap) - 1) / (chunk_size - overlap) ∧
          (∀ i (h : i < L.length),
            L.get ⟨i, h⟩ = (words.drop (i * (chunk_size - overlap))).take chunk_size) ∧
          (∀ i (h : i < L.length),
            words.length ≤ i * (chunk_size - overlap) + chunk_size →
            L.get ⟨i, h⟩ = words.drop (i * (chunk_size - overlap)))) ∧
    chunkWindows (List.range 250) 100 10 =
      .ok [(List.range 250).take 100,
           ((List.range 250).drop 90).take 100,
           (List.range 250).drop 180] ∧
    (chunkWindows (List.range 250) 100 10).map (fun L => L.map List.length) =
      .ok [100, 100, 70] := by
  refine ⟨?_, ?_, ?_⟩
  · intro α words cs ov hlt hcap
    refine ⟨_, chunkWindows_pos words cs ov hlt hcap, by simp, ?_, ?_⟩
    · intro i h
      simp only [List.get_eq_getElem, List.getElem_map, List.getElem_range]
    · intro i h hlast
      simp only [List.get_eq_getElem, List.getElem_map, List.getElem_range]
      exact List.take_of_length_le (by rw [List.length_drop]; omega)
  · set_option maxRecDepth 10000 in rfl
  · set_option maxRecDepth 10000 in rfl

/-- Witness for C3: the general window law applied at the concrete 250-word
document with `chunk_size = 100`, `overlap = 10`, evaluating to the 3 expected
windows. -/
theorem chunk_document_window_layout_witness :
    (chunkWindows (List.range 250) 100 10).isOk = true ∧
    (chunkWindows (List.range 250) 100 10).map List.length = .ok 3 := by
  obtain ⟨L, hL, hlen, -, -⟩ :=
    chunk_document_window_layout.1 (List.range 250) 100 10 (by decide) (by decide)
  rw [hL]
  refine ⟨rfl, ?_⟩
  simp only [Except.map]
  rw [hlen, List.length_range]

/--
Claim C4, counterexample. The frozen claim asserts that for `overlap ≥ chunk_size`
the unguarded split computation "stalls or loops rather than rejecting this
parameter combination".  On the code this is false at `chunk_size = 100`,
`overlap = 100`: Python's `range(0, n, 0)` raises `ValueError`, i.e. the call is
rejected with an error, and at `overlap = 110` (negative step) the split
terminates immediately with an empty window list rather than looping.
-/
theorem chunk_document_degenerate_counterexample :
    chunkWindows (List.range 250) 100 100 = .error "range() arg 3 must not be zero" ∧
    chunkWindows (List.range 250) 100 110 = .ok [] := ⟨rfl, rfl⟩

/--
Claim C4, amended. For every document and parameters with `overlap ≥ chunk_size ≤ 150`
(non-positive step), the chunker makes no forward progress — it produces no
window at all — but it neither stalls nor loops: with `overlap = chunk_size`
the zero step is rejected by the `range` construction with a `ValueError`, and
with `overlap > chunk_size` the negative-step `range` is empty, so the split
terminates with zero windows; the parameter combination is never validated up
front by the chunker itself.
-/
theorem chunk_document_degenerate_behavior {α : Type} (words : List α)
    (chunk_size overlap : Nat) (hcap : chunk_size ≤ 150) (hge : chunk_size ≤ overlap) :
    chunkWindows words chunk_size overlap =
      if overlap = chunk_size then .error "range() arg 3 must not be zero" else .ok [] := by
  unfold chunkWindows pyRangeZero
  have hcs : ¬ chunk_size > 150 := by omega
  simp only [hcs, if_false]
  by_cases heq : overlap = chunk_size
  · subst heq
    rw [if_pos (by omega), if_pos rfl]
    rfl
  · have hneg : (chunk_size : Int) - (overlap : Int) < 0 := by omega
    rw [if_neg (by omega), if_pos hneg, if_neg heq]
    rfl

/-- Witness for C4 (amended): at `chunk_size = 100` the split raises for
`overlap = 100` and returns zero windows for `overlap = 110`. -/
theorem chunk_document_degenerate_behavior_witness :
    chunkWindows ([0, 1, 2] : List Nat) 100 100 =
      .error "range() arg 3 must not be zero" ∧
    chunkWindows ([0, 1, 2] : List Nat) 100 110 = .ok [] := by
  constructor
  · rw [chunk_document_degenerate_behavior ([0, 1, 2] : List Nat) 100 100
      (by decide) (by decide)]
    rfl
  · rw [chunk_document_degenerate_behavior ([0, 1, 2] : List Nat) 100 110
      (by decide) (by decide)]
    rfl

/--
A row of the `document_chunks` table as the experiments read it:
`(id, document_id, chunk_index, content, embedding)`
(src/api/database/models.py / the raw `CREATE TABLE` in
`EmbeddingBenchmark._update_table_schema`).
-/
structure ChunkRow where
  id : Nat
  document_id : Nat
  chunk_index : Nat
  content : String
  embedding : List ℚ
deriving DecidableEq

/--
A persisted ground-truth record, as produced by
`ChunkingQualityExperiment._generate_single_ground_truth` and stored in the
`ground_truths_*.json` artifacts.
-/
structure GTItem where
  chunk_id : Nat
  chunk_content : String
  document_title : String
  question : String
  expected_answer : String
  keywords : List String
deriving DecidableEq

/--
The lookup `self.db.query(DocumentChunk).filter_by(content=content_to_match).first()`:
the first chunk row of the store whose content equals the given text verbatim.
-/
def findChunkByContent (rows : List ChunkRow) (content : String) : Option ChunkRow :=
  rows.find? (fun r => r.content == content)

/--
The remapper `ChunkingQualityExperiment._load_and_remap_ground_truths`
(src/api/experiments/experiment_chunk_quality.py, lines 106-127), after the
JSON parse: for each stored item look up a chunk of the new store whose content
matches the item's `chunk_content` verbatim; on a hit the item is kept with its
`chunk_id` rewritten to the matching chunk's id, on a miss the item is dropped
and the not-found counter is bumped.  Returns (remapped items, unresolved count).
-/
def remapGroundTruths (rows : List ChunkRow) : List GTItem → List GTItem × Nat
  | [] => ([], 0)
  | item :: rest =>
    let tail := remapGroundTruths rows rest
    match findChunkByContent rows item.chunk_content with
    | some chunk => ({ item with chunk_id := chunk.id } :: tail.1, tail.2)
    | none => (tail.1, tail.2 + 1)

/--
Claim C5. Remapping outputs exactly those items whose stored `chunk_content`
occurs verbatim as the content of some chunk in the new store, with each kept
item's `chunk_id` replaced by a matching chunk's current identifier; every item
without a verbatim content match is absent from the output and counted as
unresolved.  Consequently (third conjunct), when every item's content does occur
in the new store — as it does when the store is rebuilt by the deterministic
chunker with identical parameters on identical source text — 100% of items are
remapped with zero unresolved.
-/
theorem remap_ground_truths_spec :
    (∀ (rows : List ChunkRow) (items : List GTItem),
      (remapGroundTruths rows items).1 =
        items.filterMap (fun it => (findChunkByContent rows it.chunk_content).map
          (fun c => { it with chunk_id := c.id })) ∧
      (remapGroundTruths rows items).2 =
        (items.filter (fun it => (findChunkByContent rows it.chunk_content).isNone)).length) ∧
    (∀ (rows : List ChunkRow) (items : List GTItem) (out : GTItem),
      out ∈ (remapGroundTruths rows items).1 →
      ∃ it ∈ items, ∃ c ∈ rows, c.content = it.chunk_content ∧
        out = { it with chunk_id := c.id }) ∧
    (∀ (rows : List ChunkRow) (items : List GTItem),
      (∀ it ∈ items, ∃ r ∈ rows, r.content = it.chunk_content) →
      (remapGroundTruths rows items).2 = 0 ∧
      (remapGroundTruths rows items).1.length = items.length) := by
  have hmain : ∀ (rows : List ChunkRow) (items : List GTItem),
      (remapGroundTruths rows items).1 =
        items.filterMap (fun it => (findChunkByContent rows it.chunk_content).map
          (fun c => { it with chunk_id := c.id })) ∧
      (remapGroundTruths rows items).2 =
        (items.filter (fun it => (findChunkByContent rows it.chunk_content).isNone)).length := by
    intro rows items
    induction items with
    | nil => exact ⟨rfl, rfl⟩
    | cons item rest ih =>
      simp only [remapGroundTruths, List.filterMap_cons, List.filter_cons]
      cases hfind : findChunkByContent rows item.chunk_content with
      | some chunk =>
        simp only [hfind, Option.map_some, Option.isNone_some, Bool.false_eq_true,
          if_false, ih.1, ih.2]
        exact ⟨by rfl, trivial⟩
      | none =>
        simp only [hfind, Option.map_none, Option.isNone_none, if_true,
          List.length_cons, ih.1, ih.2]
        exact ⟨by rfl, trivial⟩
  refine ⟨hmain, ?_, ?_⟩
  · intro rows items out hout
    rw [(hmain rows items).1] at hout
    obtain ⟨it, hit, hmap⟩ := List.mem_filterMap.mp hout
    cases hfind : findChunkByContent rows it.chunk_content with
    | none => rw [hfind] at hmap; exact absurd hmap (by simp)
    | some c =>
      rw [hfind] at hmap
      refine ⟨it, hit, c, ?_, ?_, ?_⟩
      · exact List.mem_of_find?_eq_some hfind
      · have := List.find?_some hfind
        exact (beq_iff_eq.mp this)
      · simpa using hmap.symm
  · intro rows items hall
    have hsome : ∀ it ∈ items, (findChunkByContent rows it.chunk_content).isSome := by
      intro it hit
      obtain ⟨r, hr, hrc⟩ := hall it hit
      exact List.find?_isSome.mpr ⟨r, hr, beq_iff_eq.mpr hrc⟩
    constructor
    · rw [(hmain rows items).2]
      rw [List.length_eq_zero, List.filter_eq_nil_iff]
      intro it hit
      have := hsome it hit
      simp only [Option.isNone_iff_eq_none]
      intro hnone
      rw [hnone] at this
      exact absurd this (by simp)
    · clear hall
      induction items with
      | nil => rfl
      | cons item rest ih =>
        have hhead := hsome item (List.mem_cons_self item rest)
        obtain ⟨c, hc⟩ := Option.isSome_iff_exists.mp hhead
        simp only [remapGroundTruths, hc, List.length_cons]
        exact congrArg (· + 1)
          (ih (fun it hit => hsome it (List.mem_cons_of_mem _ hit)))

/-- Witness for C5: a two-row store and a two-item ground-truth set where
both contents occur verbatim; the consequence clause of the theorem yields zero
unresolved items and full-length output. -/
theorem remap_ground_truths_spec_witness :
    (remapGroundTruths
      [⟨7, 1, 0, "alpha beta", []⟩, ⟨8, 1, 1, "gamma delta", []⟩]
      [⟨3, "gamma delta", "t", "q1", "a1", []⟩, ⟨4, "alpha beta", "t", "q2", "a2", []⟩]).2 = 0 ∧
    (remapGroundTruths
      [⟨7, 1, 0, "alpha beta", []⟩, ⟨8, 1, 1, "gamma delta", []⟩]
      [⟨3, "gamma delta", "t", "q1", "a1", []⟩, ⟨4, "alpha beta", "t", "q2", "a2", []⟩]).1.length = 2 :=
  remap_ground_truths_spec.2.2
    [⟨7, 1, 0, "alpha beta", []⟩, ⟨8, 1, 1, "gamma delta", []⟩]
    [⟨3, "gamma delta", "t", "q1", "a1", []⟩, ⟨4, "alpha beta", "t", "q2", "a2", []⟩]
    (by decide)

/-- Python `s.lower()`: lower-case every character of the string. -/
def lowerChars (s : String) : List Char :=
  s.data.map Char.toLower

/-- Python `kw.lower() in text.lower()`: case-insensitive substring test. -/
def kwInText (kw text : String) : Bool :=
  decide (lowerChars kw <:+: lowerChars text)

/-- Python `n >= m / 2` (true division) on two counts, decided exactly over ℚ. -/
def halfThreshold (m n : Nat) : Bool :=
  decide ((m : ℚ) / 2 ≤ (n : ℚ))

/-- Python `n >= m * 0.5` on two counts, decided exactly over ℚ (0.5 is exactly 1/2). -/
def halfScaleThreshold (m n : Nat) : Bool :=
  decide ((m : ℚ) * (1 / 2) ≤ (n : ℚ))

/-- The exact-rational comparison `n >= m / 2` is the integer test `m ≤ 2 * n`. -/
theorem halfThreshold_eq (m n : Nat) : halfThreshold m n = decide (m ≤ 2 * n) := by
  unfold halfThreshold
  rw [decide_eq_decide, div_le_iff₀ (by norm_num : (0 : ℚ) < 2), mul_comm]
  norm_cast

/-- The exact-rational comparison `n >= m * 0.5` is the integer test `m ≤ 2 * n`. -/
theorem halfScaleThreshold_eq (m n : Nat) :
    halfScaleThreshold m n = decide (m ≤ 2 * n) := by
  unfold halfScaleThreshold
  rw [decide_eq_decide, mul_one_div, div_le_iff₀ (by norm_num : (0 : ℚ) < 2), mul_comm]
  norm_cast

/--
The check `EmbeddingBenchmark._check_keyword_match`
(src/api/experiments/experiment_embedding_quality.py, lines 177-181): an empty
keyword list yields `([], False)`; otherwise the keywords found
case-insensitively in the retrieved text are collected, and the match flag is
`len(found) >= len(keywords) / 2` with Python true division.
-/
def checkKeywordMatch (retrieved_text : String) (keywords : List String) :
    List String × Bool :=
  if keywords = [] then ([], false)
  else
    let found := keywords.filter (fun kw => kwInText kw retrieved_text)
    (found, halfThreshold keywords.length found.length)

/--
Claim C7. For a non-empty keyword list, `keyword_match` is true iff the fraction
of keywords present in the top-1 retrieved chunk's text (case-insensitive
substring match) is at least 1/2; in particular with four keywords, finding
2 of 4 (fraction exactly 1/2) yields `true` and finding 1 of 4 (fraction 1/4)
yields `false`.
-/
theorem keyword_match_threshold :
    (∀ (text : String) (keywords : List String), keywords ≠ [] →
      ((checkKeywordMatch text keywords).2 = true ↔
        (1 : ℚ) / 2 ≤
          ((keywords.filter (fun kw => kwInText kw text)).length : ℚ) /
            (keywords.length : ℚ))) ∧
    ((["credit", "semester", "thesis", "exam"].filter
        (fun kw => kwInText kw "The Thesis precedes the final Exam")).length = 2 ∧
      (checkKeywordMatch "The Thesis precedes the final Exam"
        ["credit", "semester", "thesis", "exam"]).2 = true) ∧
    ((["credit", "semester", "thesis", "exam"].filter
        (fun kw => kwInText kw "only the final Exam")).length = 1 ∧
      (checkKeywordMatch "only the final Exam"
        ["credit", "semester", "thesis", "exam"]).2 = false) := by
  refine ⟨?_, ⟨by decide, ?_⟩, ⟨by decide, ?_⟩⟩
  · intro text keywords hne
    unfold checkKeywordMatch
    rw [if_neg hne]
    simp only [halfThreshold_eq, decide_eq_true_eq]
    have hk : (0 : ℚ) < (keywords.length : ℚ) := by
      have : 0 < keywords.length := List.length_pos.mpr hne
      exact_mod_cast this
    rw [le_div_iff₀ hk, one_div, inv_mul_eq_div, div_le_iff₀ (by norm_num : (0 : ℚ) < 2),
      mul_comm]
    norm_cast
  · unfold checkKeywordMatch
    simp only [halfThreshold_eq]
    decide
  · unfold checkKeywordMatch
    simp only [halfThreshold_eq]
    decide

/-- Witness for C7: the threshold law applied at the concrete 2-of-4 input. -/
theorem keyword_match_threshold_witness :
    (checkKeywordMatch "The Thesis precedes the final Exam"
      ["credit", "semester", "thesis", "exam"]).2 = true := by
  apply (keyword_match_threshold.1 "The Thesis precedes the final Exam"
    ["credit", "semester", "thesis", "exam"] (by decide)).mpr
  have h2 : (["credit", "semester", "thesis", "exam"].filter
      (fun kw => kwInText kw "The Thesis precedes the final Exam")).length = 2 := by decide
  rw [h2]
  norm_num

/--
One retrieved chunk as the chunking-quality evaluator sees it after mapping the
retrieved contents back to stored rows: identifier and content text.
-/
structure RetrievedChunk where
  id : Nat
  content : String
deriving DecidableEq

/--
One ground-truth question as `_test_retrieval_quality` consumes it, together
with the outcome of its retrieval step: `retrieval = none` models
`service.search_regulations` raising (for example a transient embedding error),
`retrieval = some chunks` the retrieved chunks in ascending distance order.
-/
structure EvalQuery where
  expected_chunk_id : Nat
  keywords : List String
  retrieval : Option (List RetrievedChunk)
deriving DecidableEq

/-- The per-question trace record appended to `results` by both experiments. -/
structure QuestionResult where
  expected_chunk_id : Nat
  retrieved_chunk_ids : List Nat
  found : Bool
  rank : Option Nat
  keywords : List String
  keywords_found : List String
  keyword_match : Bool
deriving DecidableEq

/--
The per-question body of `ChunkingQualityExperiment._test_retrieval_quality`
(src/api/experiments/experiment_chunk_quality.py, lines 209-253): membership of
the expected id among the retrieved ids, the 1-indexed rank via `list.index`,
the reciprocal-rank contribution, and the keyword check against the top-1
retrieved chunk (`len(keywords_found) >= len(keywords) * 0.5 if keywords else
False`).  Returns the trace record and the reciprocal-rank value appended for
this question.
-/
def evalQuestion (expected_chunk_id : Nat) (keywords : List String)
    (retrieved : List RetrievedChunk) : QuestionResult × ℚ :=
  let retrieved_ids := retrieved.map RetrievedChunk.id
  let found := retrieved_ids.contains expected_chunk_id
  let rr : ℚ :=
    if found then 1 / ((retrieved_ids.indexOf expected_chunk_id : ℚ) + 1) else 0
  let keywords_found :=
    match retrieved with
    | top :: _ =>
        if keywords = [] then []
        else keywords.filter (fun kw => kwInText kw top.content)
    | [] => []
  let keyword_match :=
    if keywords = [] then false
    else halfScaleThreshold keywords.length keywords_found.length
  ({ expected_chunk_id := expected_chunk_id
     retrieved_chunk_ids := retrieved_ids
     found := found
     rank := if found then some (retrieved_ids.indexOf expected_chunk_id + 1) else none
     keywords := keywords
     keywords_found := keywords_found
     keyword_match := keyword_match }, rr)

/--
One iteration of the `_test_retrieval_quality` loop: the retrieval step either
raises (aborting the loop) or yields the retrieved chunks, which are evaluated.
-/
def evalStep (gt : EvalQuery) : Except String (QuestionResult × ℚ) :=
  match gt.retrieval with
  | some retrieved => .ok (evalQuestion gt.expected_chunk_id gt.keywords retrieved)
  | none => .error "retrieval raised"

/--
The `_test_retrieval_quality` loop over all questions, in order; it has no
per-question exception handling, so the first raising retrieval propagates.
-/
def evalLoop : List EvalQuery → Except String (List (QuestionResult × ℚ))
  | [] => .ok []
  | gt :: rest =>
    match evalStep gt with
    | .error e => .error e
    | .ok p =>
      match evalLoop rest with
      | .error e => .error e
      | .ok ps => .ok (p :: ps)

/-- The aggregate report assembled by `_test_retrieval_quality` (lines 266-275). -/
structure EvalReport where
  chunk_size : Nat
  total_questions : Nat
  correct_retrievals : Nat
  accuracy : ℚ
  mrr : ℚ
  keyword_matches : Nat
  keyword_accuracy : ℚ
  results : List QuestionResult
deriving DecidableEq

/--
The evaluator `ChunkingQualityExperiment._test_retrieval_quality` (lines 187-281): run the
per-question loop (a raising retrieval aborts the whole evaluation), then
compute `accuracy = correct_count / len(ground_truths)`,
`mrr = sum(reciprocal_ranks) / len(reciprocal_ranks)` and
`keyword_accuracy = keyword_match_count / len(ground_truths)`, each 0 when the
corresponding list is empty.
-/
def testRetrievalQuality (chunk_size : Nat) (ground_truths : List EvalQuery) :
    Except String EvalReport :=
  (evalLoop ground_truths).map (fun evaluated =>
    let results := evaluated.map Prod.fst
    let reciprocal_ranks := evaluated.map Prod.snd
    let correct_count := (results.filter QuestionResult.found).length
    let keyword_match_count := (results.filter QuestionResult.keyword_match).length
    { chunk_size := chunk_size
      total_questions := ground_truths.length
      correct_retrievals := correct_count
      accuracy := if ground_truths.isEmpty then 0
        else (correct_count : ℚ) / (ground_truths.length : ℚ)
      mrr := if reciprocal_ranks.isEmpty then 0
        else reciprocal_ranks.sum / (reciprocal_ranks.length : ℚ)
      keyword_matches := keyword_match_count
      keyword_accuracy := if ground_truths.isEmpty then 0
        else (keyword_match_count : ℚ) / (ground_truths.length : ℚ)
      results := results })

/--
One benchmark query of `EmbeddingBenchmark._run_benchmark` together with the
outcome of its embed-and-search step: `none` models the per-question `except`
branch (the question embedding or the SQL search raised), `some contents` the
retrieved chunk contents in ascending cosine-distance order.
-/
structure BenchQuery where
  target_id : Nat
  keywords : List String
  search : Option (List String)
deriving DecidableEq

/--
The per-question body of `EmbeddingBenchmark._run_benchmark`
(src/api/experiments/experiment_embedding_quality.py, lines 218-260): retrieved
contents are mapped back to identifiers through `content_id_map` (contents
absent from the map are skipped), found/rank/reciprocal-rank are computed as in
the chunking experiment, and the keyword check runs on the raw top-1 retrieved
content (`""` when nothing was retrieved).
-/
def benchEvalQuestion (content_id_map : String → Option Nat) (target_id : Nat)
    (keywords : List String) (retrieved_contents : List String) :
    QuestionResult × ℚ :=
  let retrieved_ids := retrieved_contents.filterMap content_id_map
  let is_found := retrieved_ids.contains target_id
  let rr : ℚ :=
    if is_found then 1 / ((retrieved_ids.indexOf target_id : ℚ) + 1) else 0
  let top_text := match retrieved_contents with | t :: _ => t | [] => ""
  let km := checkKeywordMatch top_text keywords
  ({ expected_chunk_id := target_id
     retrieved_chunk_ids := retrieved_ids
     found := is_found
     rank := if is_found then some (retrieved_ids.indexOf target_id + 1) else none
     keywords := keywords
     keywords_found := km.1
     keyword_match := km.2 }, rr)

/-- The aggregate report of `_run_benchmark` (lines 270-289); the model-name,
dataset and chunk-size fields are configuration labels and are omitted. -/
structure BenchReport where
  total_questions : Nat
  correct_retrievals : Nat
  accuracy : ℚ
  mrr : ℚ
  keyword_matches : Nat
  keyword_accuracy : ℚ
  results : List QuestionResult
deriving DecidableEq

/--
The metrics loop and aggregate computation of `EmbeddingBenchmark._run_benchmark`
(lines 204-289).  `total_questions = len(valid_queries)` is fixed **before** the
loop; a query whose embed-or-search step raises is logged and contributes to
none of the accumulators (the `except` branch), while `accuracy` and
`keyword_accuracy` still divide by `total_questions` and `mrr` divides by the
number of successfully processed queries.
-/
def runBenchmarkMetrics (content_id_map : String → Option Nat)
    (valid_queries : List BenchQuery) : BenchReport :=
  let processed := valid_queries.filterMap (fun q =>
    q.search.map (benchEvalQuestion content_id_map q.target_id q.keywords))
  let results := processed.map Prod.fst
  let reciprocal_ranks := processed.map Prod.snd
  let total_questions := valid_queries.length
  let correct_count := (results.filter QuestionResult.found).length
  let keyword_match_count := (results.filter QuestionResult.keyword_match).length
  { total_questions := total_questions
    correct_retrievals := correct_count
    accuracy := if total_questions = 0 then 0
      else (correct_count : ℚ) / (total_questions : ℚ)
    mrr := if reciprocal_ranks.isEmpty then 0
      else reciprocal_ranks.sum / (reciprocal_ranks.length : ℚ)
    keyword_matches := keyword_match_count
    keyword_accuracy := if total_questions = 0 then 0
      else (keyword_match_count : ℚ) / (total_questions : ℚ)
    results := results }

/-- The question/answer/keywords shape required from the LLM response. -/
structure QAPair where
  question : String
  expected_answer : String
  keywords : List String
deriving DecidableEq

/--
A sampled chunk row joined with its parent document title, as
`_generate_single_ground_truth` reads it (`chunk.id`, `chunk.content`,
`chunk.document.title`).
-/
structure SampledChunk where
  id : Nat
  content : String
  document_title : String
deriving DecidableEq

/--
The generator `ChunkingQualityExperiment._generate_single_ground_truth` (lines 129-157): the
LLM round trip plus JSON parse is modelled by `llm : SampledChunk → Option QAPair`
(`none` is the `except` branch — network error or a response not parseable into
the required shape — which returns `None`); on success the ground-truth item is
assembled from the chunk and the parsed triple.
-/
def generateSingleGroundTruth (llm : SampledChunk → Option QAPair)
    (chunk : SampledChunk) : Option GTItem :=
  (llm chunk).map (fun qa =>
    { chunk_id := chunk.id
      chunk_content := chunk.content
      document_title := chunk.document_title
      question := qa.question
      expected_answer := qa.expected_answer
      keywords := qa.keywords })

/--
The batch generator `ChunkingQualityExperiment._generate_ground_truths` (lines 159-185): every
sampled chunk is submitted to the worker pool; a successful result is appended
to the output, a failure only bumps the `failed` counter, and the batch itself
never raises.  Completion order is nondeterministic in the source, but the
output set and both counters are order-independent, so this submission-order
fold is a faithful model of them.  Returns (ground truths, failed count).
-/
def generateGroundTruths (llm : SampledChunk → Option QAPair) :
    List SampledChunk → List GTItem × Nat
  | [] => ([], 0)
  | chunk :: rest =>
    let tail := generateGroundTruths llm rest
    match generateSingleGroundTruth llm chunk with
    | some item => (item :: tail.1, tail.2)
    | none => (tail.1, tail.2 + 1)

/-- The reciprocal-rank value determined by a trace record's `rank` field:
`1/rank` when found, 0 otherwise. -/
def reciprocalOfRank (r : QuestionResult) : ℚ :=
  match r.rank with
  | some k => (1 : ℚ) / k
  | none => 0

/-- The reciprocal-rank value appended by the evaluator equals `1/rank` when the
expected chunk was found and 0 otherwise. -/
theorem evalQuestion_snd (expected : Nat) (keywords : List String)
    (retrieved : List RetrievedChunk) :
    (evalQuestion expected keywords retrieved).2 =
      reciprocalOfRank (evalQuestion expected keywords retrieved).1 := by
  unfold evalQuestion reciprocalOfRank
  by_cases h : (retrieved.map RetrievedChunk.id).contains expected
  · simp only [h, if_true, if_pos]
    push_cast
    rfl
  · simp only [h, Bool.false_eq_true, if_false]

/-- The `found` flag is membership of the expected id among the retrieved ids. -/
theorem evalQuestion_found_iff (expected : Nat) (keywords : List String)
    (retrieved : List RetrievedChunk) :
    (evalQuestion expected keywords retrieved).1.found = true ↔
      expected ∈ retrieved.map RetrievedChunk.id := by
  unfold evalQuestion
  exact List.elem_iff

/-- The `rank` field is the 1-indexed position of the expected id when found, else none. -/
theorem evalQuestion_rank (expected : Nat) (keywords : List String)
    (retrieved : List RetrievedChunk) :
    (evalQuestion expected keywords retrieved).1.rank =
      (if expected ∈ retrieved.map RetrievedChunk.id then
        some ((retrieved.map RetrievedChunk.id).indexOf expected + 1) else none) := by
  unfold evalQuestion
  by_cases h : expected ∈ retrieved.map RetrievedChunk.id
  · rw [if_pos h]
    simp only [List.elem_iff.mpr h, if_true]
  · rw [if_neg h]
    have : (retrieved.map RetrievedChunk.id).contains expected = false := by
      rw [← Bool.not_eq_true]
      intro hc
      exact h (List.elem_iff.mp hc)
    simp only [this, Bool.false_eq_true, if_false]

/-- Inverting a successful evaluation loop: every retrieval succeeded and the
collected outcomes are the per-question evaluations in order. -/
theorem evalLoop_ok_elim (qs : List EvalQuery) (ev : List (QuestionResult × ℚ))
    (h : evalLoop qs = .ok ev) :
    (∀ q ∈ qs, q.retrieval.isSome = true) ∧
    ev = qs.map (fun q =>
      evalQuestion q.expected_chunk_id q.keywords (q.retrieval.getD [])) := by
  induction qs generalizing ev with
  | nil =>
    refine ⟨by simp, ?_⟩
    simpa [evalLoop] using h.symm
  | cons q rest ih =>
    cases hr : q.retrieval with
    | none =>
      rw [evalLoop, evalStep, hr] at h
      exact absurd h (by simp)
    | some retrieved =>
      rw [evalLoop, evalStep, hr] at h
      cases hrest : evalLoop rest with
      | error e => rw [hrest] at h; exact absurd h (by simp)
      | ok ps =>
        rw [hrest] at h
        obtain ⟨hall, hmap⟩ := ih ps hrest
        have hev : ev = evalQuestion q.expected_chunk_id q.keywords retrieved :: ps := by
          have := Except.ok.inj h
          exact this.symm
        constructor
        · intro x hx
          rcases List.mem_cons.mp hx with hx | hx
          · subst hx; rw [hr]; rfl
          · exact hall x hx
        · rw [hev, hmap, List.map_cons, hr]
          rfl

/-- The evaluation loop succeeds exactly when no retrieval raised. -/
theorem evalLoop_isOk_iff (qs : List EvalQuery) :
    (evalLoop qs).isOk = true ↔ ∀ q ∈ qs, q.retrieval.isSome = true := by
  induction qs with
  | nil => exact ⟨fun _ => by simp, fun _ => rfl⟩
  | cons q rest ih =>
    cases hr : q.retrieval with
    | none =>
      simp only [evalLoop, evalStep, hr]
      constructor
      · intro hfalse; exact absurd hfalse (by simp [Except.isOk, Except.toBool])
      · intro hall
        have := hall q (List.mem_cons_self q rest)
        rw [hr] at this
        exact absurd this (by simp)
    | some retrieved =>
      simp only [evalLoop, evalStep, hr]
      cases hrest : evalLoop rest with
      | error e =>
        rw [hrest] at ih
        constructor
        · intro hfalse; exact absurd hfalse (by simp [Except.isOk, Except.toBool])
        · intro hall
          have : False := by
            have h2 := ih.mpr (fun x hx => hall x (List.mem_cons_of_mem _ hx))
            exact absurd h2 (by simp [Except.isOk, Except.toBool])
          exact this.elim
      | ok ps =>
        rw [hrest] at ih
        simp only [Except.isOk]
        constructor
        · intro _ x hx
          rcases List.mem_cons.mp hx with hx | hx
          · subst hx; rw [hr]; rfl
          · exact ih.mp (by rfl) x hx
        · intro _; rfl

/-- Summing a constant-1 map gives the length. -/
theorem sum_map_all_one {α : Type} (l : List α) (f : α → ℚ)
    (h : ∀ x ∈ l, f x = 1) : (l.map f).sum = (l.length : ℚ) := by
  induction l with
  | nil => simp
  | cons x rest ih =>
    simp only [List.map_cons, List.sum_cons, List.length_cons,
      h x (List.mem_cons_self x rest), ih (fun y hy => h y (List.mem_cons_of_mem _ hy))]
    push_cast
    ring

/-- Summing a constant-0 map gives 0. -/
theorem sum_map_all_zero {α : Type} (l : List α) (f : α → ℚ)
    (h : ∀ x ∈ l, f x = 0) : (l.map f).sum = 0 := by
  induction l with
  | nil => simp
  | cons x rest ih =>
    simp only [List.map_cons, List.sum_cons,
      h x (List.mem_cons_self x rest), ih (fun y hy => h y (List.mem_cons_of_mem _ hy))]
    ring

/-- Mapping over `Except` does not change whether the computation succeeded. -/
theorem isOk_exceptMap {ε α β : Type} (f : α → β) (e : Except ε α) :
    (e.map f).isOk = e.isOk := by
  cases e <;> rfl

/-- Inverting a successful `_test_retrieval_quality` run: the evaluated outcomes
and every report field in terms of them. -/
theorem testRetrievalQuality_ok_elim (cs : Nat) (qs : List EvalQuery)
    (report : EvalReport) (h : testRetrievalQuality cs qs = .ok report) :
    ∃ ev, evalLoop qs = .ok ev ∧
      ev = qs.map (fun q =>
        evalQuestion q.expected_chunk_id q.keywords (q.retrieval.getD [])) ∧
      report.total_questions = qs.length ∧
      report.results = ev.map Prod.fst ∧
      report.correct_retrievals =
        ((ev.map Prod.fst).filter QuestionResult.found).length ∧
      report.keyword_matches =
        ((ev.map Prod.fst).filter QuestionResult.keyword_match).length ∧
      report.accuracy = (if qs.isEmpty then 0
        else (((ev.map Prod.fst).filter QuestionResult.found).length : ℚ) /
          (qs.length : ℚ)) ∧
      report.mrr = (if (ev.map Prod.snd).isEmpty then 0
        else (ev.map Prod.snd).sum / ((ev.map Prod.snd).length : ℚ)) := by
  unfold testRetrievalQuality at h
  cases hloop : evalLoop qs with
  | error e =>
    rw [hloop] at h
    exact absurd h (by simp [Except.map])
  | ok ev =>
    rw [hloop] at h
    simp only [Except.map] at h
    obtain rfl := (Except.ok.inj h).symm
    exact ⟨ev, rfl, (evalLoop_ok_elim qs ev hloop).2, rfl, rfl, rfl, rfl, rfl, rfl⟩

/-- A question whose expected chunk is retrieved at rank 1 is found and
contributes reciprocal rank 1. -/
theorem evalQuestion_top_hit (e : Nat) (k : List String) (c : RetrievedChunk)
    (rest : List RetrievedChunk) (hc : c.id = e) :
    (evalQuestion e k (c :: rest)).1.found = true ∧
    (evalQuestion e k (c :: rest)).2 = 1 := by
  have hmem : e ∈ (c :: rest).map RetrievedChunk.id := by
    rw [List.map_cons, hc]
    exact List.mem_cons_self e _
  refine ⟨(evalQuestion_found_iff e k (c :: rest)).mpr hmem, ?_⟩
  have hrank : (evalQuestion e k (c :: rest)).1.rank = some 1 := by
    rw [evalQuestion_rank, if_pos hmem]
    have hidx : ((c :: rest).map RetrievedChunk.id).indexOf e = 0 := by
      rw [List.map_cons, hc]
      exact List.indexOf_cons_self e _
    rw [hidx]
  rw [evalQuestion_snd]
  unfold reciprocalOfRank
  rw [hrank]
  norm_num

/-- A question whose expected chunk is absent from the retrieved list is not
found and contributes reciprocal rank 0. -/
theorem evalQuestion_miss (e : Nat) (k : List String)
    (retrieved : List RetrievedChunk) (h : e ∉ retrieved.map RetrievedChunk.id) :
    (evalQuestion e k retrieved).1.found = false ∧
    (evalQuestion e k retrieved).2 = 0 := by
  have hfound : (evalQuestion e k retrieved).1.found = false := by
    rw [← Bool.not_eq_true]
    exact fun hc => h ((evalQuestion_found_iff e k retrieved).mp hc)
  refine ⟨hfound, ?_⟩
  have hrank : (evalQuestion e k retrieved).1.rank = none := by
    rw [evalQuestion_rank, if_neg h]
  rw [evalQuestion_snd]
  unfold reciprocalOfRank
  rw [hrank]

/--
Claim C6. Per question: `found` is true iff the expected chunk's identifier
appears among the retrieved identifiers, `rank` is its 1-indexed position when
found and none otherwise, and the question's reciprocal-rank contribution is
`1/rank` when found and 0 otherwise.  For every successful evaluation the
aggregates satisfy `Recall@K = correct/total` and `MRR` = mean of the
reciprocal ranks.  Consequently, when the expected chunk is retrieved at rank 1
for every question, `Recall = 1` and `MRR = 1`; when it is absent from the
retrieved list for every question, both are 0.
-/
theorem retrieval_metrics_spec :
    (∀ (expected : Nat) (keywords : List String) (retrieved : List RetrievedChunk),
      ((evalQuestion expected keywords retrieved).1.found = true ↔
        expected ∈ retrieved.map RetrievedChunk.id) ∧
      ((evalQuestion expected keywords retrieved).1.rank =
        if expected ∈ retrieved.map RetrievedChunk.id then
          some ((retrieved.map RetrievedChunk.id).indexOf expected + 1) else none) ∧
      (evalQuestion expected keywords retrieved).2 =
        reciprocalOfRank (evalQuestion expected keywords retrieved).1) ∧
    (∀ (cs : Nat) (qs : List EvalQuery) (report : EvalReport),
      testRetrievalQuality cs qs = .ok report →
      report.total_questions = qs.length ∧
      report.correct_retrievals = (report.results.filter QuestionResult.found).length ∧
      report.accuracy = (if qs.length = 0 then 0
        else (report.correct_retrievals : ℚ) / (qs.length : ℚ)) ∧
      report.mrr = (if qs.length = 0 then 0
        else (report.results.map reciprocalOfRank).sum / (qs.length : ℚ))) ∧
    (∀ (cs : Nat) (qs : List EvalQuery) (report : EvalReport),
      testRetrievalQuality cs qs = .ok report → qs ≠ [] →
      (∀ q ∈ qs, ∃ c rest, q.retrieval = some (c :: rest) ∧
        c.id = q.expected_chunk_id) →
      report.accuracy = 1 ∧ report.mrr = 1) ∧
    (∀ (cs : Nat) (qs : List EvalQuery) (report : EvalReport),
      testRetrievalQuality cs qs = .ok report →
      (∀ q ∈ qs, ∀ retrieved, q.retrieval = some retrieved →
        q.expected_chunk_id ∉ retrieved.map RetrievedChunk.id) →
      report.accuracy = 0 ∧ report.mrr = 0) := by
  have hq0 : ∀ (qs : List EvalQuery), qs.isEmpty = true ↔ qs.length = 0 := by
    intro qs
    rw [List.isEmpty_iff, List.length_eq_zero]
  refine ⟨?_, ?_, ?_, ?_⟩
  · intro expected keywords retrieved
    exact ⟨evalQuestion_found_iff expected keywords retrieved,
      evalQuestion_rank expected keywords retrieved,
      evalQuestion_snd expected keywords retrieved⟩
  · intro cs qs report h
    obtain ⟨ev, hloop, hev, htot, hres, hcor, -, hacc, hmrr⟩ :=
      testRetrievalQuality_ok_elim cs qs report h
    have hlen : ev.length = qs.length := by rw [hev, List.length_map]
    have hpt : ∀ p ∈ ev, p.2 = reciprocalOfRank p.1 := by
      intro p hp
      rw [hev] at hp
      obtain ⟨q, -, rfl⟩ := List.mem_map.mp hp
      exact evalQuestion_snd _ _ _
    have hsnd : ev.map Prod.snd = (ev.map Prod.fst).map reciprocalOfRank := by
      rw [List.map_map]
      exact List.map_congr_left hpt
    refine ⟨htot, by rw [hcor, hres], ?_, ?_⟩
    · rw [hacc, hcor]
      by_cases hqe : qs.length = 0
      · rw [if_pos ((hq0 qs).mpr hqe), if_pos hqe]
      · rw [if_neg (fun hc => hqe ((hq0 qs).mp hc)), if_neg hqe]
    · rw [hmrr, hres, ← hsnd]
      by_cases hqe : qs.length = 0
      · have : ev = [] := List.length_eq_zero.mp (by omega)
        rw [if_pos (by rw [this]; rfl), if_pos hqe]
      · have hne2 : (ev.map Prod.snd).isEmpty = false := by
          rw [← Bool.not_eq_true, List.isEmpty_iff]
          intro hc
          have h0 := congrArg List.length hc
          rw [List.length_map, List.length_nil] at h0
          omega
        rw [hne2, if_neg hqe, List.length_map, hlen]
        simp only [Bool.false_eq_true, if_false]
  · intro cs qs report h hne hall
    obtain ⟨ev, hloop, hev, htot, hres, hcor, -, hacc, hmrr⟩ :=
      testRetrievalQuality_ok_elim cs qs report h
    have hlen : ev.length = qs.length := by rw [hev, List.length_map]
    have hper : ∀ p ∈ ev, p.1.found = true ∧ p.2 = 1 := by
      intro p hp
      rw [hev] at hp
      obtain ⟨q, hq, rfl⟩ := List.mem_map.mp hp
      obtain ⟨c, rest, hqr, hcid⟩ := hall q hq
      rw [hqr]
      exact evalQuestion_top_hit q.expected_chunk_id q.keywords c rest hcid
    have hlq : (qs.length : ℚ) ≠ 0 := by
      have : 0 < qs.length := List.length_pos.mpr hne
      exact_mod_cast Nat.pos_iff_ne_zero.mp this
    constructor
    · rw [hacc]
      rw [if_neg (fun hc => hne (List.isEmpty_iff.mp hc))]
      have hfil : (ev.map Prod.fst).filter QuestionResult.found = ev.map Prod.fst := by
        rw [List.filter_eq_self]
        intro r hr
        obtain ⟨p, hp, rfl⟩ := List.mem_map.mp hr
        exact (hper p hp).1
      rw [hfil, List.length_map, hlen]
      exact div_self hlq
    · rw [hmrr]
      have hone : ∀ x ∈ ev.map Prod.snd, x = 1 := by
        intro x hx
        obtain ⟨p, hp, rfl⟩ := List.mem_map.mp hx
        exact (hper p hp).2
      have hsum : (ev.map Prod.snd).sum = ((ev.map Prod.snd).length : ℚ) := by
        have := sum_map_all_one (ev.map Prod.snd) id hone
        simpa using this
      have hnem : (ev.map Prod.snd).isEmpty = false := by
        rw [← Bool.not_eq_true, List.isEmpty_iff]
        intro hc
        have : ev = [] := by
          cases ev with
          | nil => rfl
          | cons a l => exact absurd hc (by simp)
        rw [this] at hlen
        exact hne (List.length_eq_zero.mp hlen.symm)
      rw [hnem]
      simp only [Bool.false_eq_true, if_false]
      rw [hsum]
      exact div_self (by
        rw [List.length_map, hlen]
        exact hlq)
  · intro cs qs report h hall
    obtain ⟨ev, hloop, hev, htot, hres, hcor, -, hacc, hmrr⟩ :=
      testRetrievalQuality_ok_elim cs qs report h
    have hper : ∀ p ∈ ev, p.1.found = false ∧ p.2 = 0 := by
      intro p hp
      rw [hev] at hp
      obtain ⟨q, hq, rfl⟩ := List.mem_map.mp hp
      cases hqr : q.retrieval with
      | none =>
        have := (evalLoop_ok_elim qs ev hloop).1 q hq
        rw [hqr] at this
        exact absurd this (by simp)
      | some retrieved =>
        exact evalQuestion_miss q.expected_chunk_id q.keywords retrieved
          (hall q hq retrieved hqr)
    constructor
    · rw [hacc]
      by_cases hqe : qs.isEmpty
      · rw [if_pos hqe]
      · rw [if_neg hqe]
        have hfil : (ev.map Prod.fst).filter QuestionResult.found = [] := by
          rw [List.filter_eq_nil_iff]
          intro r hr
          obtain ⟨p, hp, rfl⟩ := List.mem_map.mp hr
          rw [(hper p hp).1]
          simp
        rw [hfil]
        simp
    · rw [hmrr]
      by_cases hee : (ev.map Prod.snd).isEmpty
      · rw [if_pos hee]
      · rw [if_neg hee]
        have hsum : (ev.map Prod.snd).sum = 0 := by
          apply sum_map_all_zero
          intro p hp
          exact (hper p hp).2
        rw [hsum, zero_div]

/-- Witness for C6: a single-question run whose expected chunk comes back at
rank 1; the rank-1 corollary of the theorem yields accuracy 1 and MRR 1. -/
theorem retrieval_metrics_spec_witness :
    (testRetrievalQuality 100 [⟨5, [], some [⟨5, "x"⟩]⟩]).map EvalReport.accuracy =
      .ok 1 ∧
    (testRetrievalQuality 100 [⟨5, [], some [⟨5, "x"⟩]⟩]).map EvalReport.mrr =
      .ok 1 := by
  obtain ⟨r, hr⟩ : ∃ r, testRetrievalQuality 100 [⟨5, [], some [⟨5, "x"⟩]⟩] = .ok r :=
    ⟨_, rfl⟩
  obtain ⟨ha, hm⟩ := retrieval_metrics_spec.2.2.1 100 _ r hr (by decide)
    (by
      intro q hq
      rw [List.mem_singleton] at hq
      subst hq
      exact ⟨⟨5, "x"⟩, [], rfl, rfl⟩)
  rw [hr]
  simp only [Except.map]
  rw [ha, hm]
  exact ⟨rfl, rfl⟩

/-- The length of a keep-if-some traversal equals the number of `some` entries. -/
theorem filterMap_optMap_length {α β γ : Type} (l : List α) (g : α → Option β)
    (f : (x : α) → β → γ) :
    (l.filterMap (fun x => (g x).map (f x))).length =
      (l.filter (fun x => (g x).isSome)).length := by
  induction l with
  | nil => rfl
  | cons x rest ih =>
    cases hx : g x with
    | none => simp [List.filterMap_cons, List.filter_cons, hx, ih]
    | some b => simp [List.filterMap_cons, List.filter_cons, hx, ih]

/-- Projecting the second component through a keep-if-some traversal. -/
theorem filterMap_optMap_snd {α β γ δ : Type} (l : List α) (g : α → Option β)
    (f : (x : α) → β → γ × δ) :
    (l.filterMap (fun x => (g x).map (f x))).map Prod.snd =
      l.filterMap (fun x => (g x).map (fun b => (f x b).2)) := by
  induction l with
  | nil => rfl
  | cons x rest ih =>
    cases hx : g x with
    | none => simp [List.filterMap_cons, hx, ih]
    | some b => simp [List.filterMap_cons, hx, ih]

/-- Concrete content-to-id map for the error-accounting counterexample. -/
def exContentIdMap : String → Option Nat :=
  fun s => if s = "c" then some 7 else none

/-- Two benchmark queries: the first raises during its embed-or-search step, the
second retrieves its target at rank 1. -/
def exBenchQueries : List BenchQuery :=
  [⟨7, [], none⟩, ⟨7, [], some ["c"]⟩]

/-- The same two-question situation for the chunking-quality evaluator. -/
def exEvalQueries : List EvalQuery :=
  [⟨7, [], none⟩, ⟨7, [], some [⟨7, "c"⟩]⟩]

/--
Claim C1, counterexample. The frozen claim says an errored question is excluded
from both the numerator and the denominator of every aggregate metric and that
the run continues.  On the code this is false: in the embedding benchmark, with
one errored question and one question answered at rank 1, `accuracy` is 1/2
(the errored question stays in the denominator `total_questions = 2`, while one
question was evaluated and found), not `1/1`; and in the chunking-quality
experiment the same situation does not even continue — the evaluation aborts
with the retrieval error.
-/
theorem retrieval_error_exclusion_counterexample :
    (runBenchmarkMetrics exContentIdMap exBenchQueries).total_questions = 2 ∧
    (runBenchmarkMetrics exContentIdMap exBenchQueries).correct_retrievals = 1 ∧
    (exBenchQueries.filter (fun q => q.search.isSome)).length = 1 ∧
    (runBenchmarkMetrics exContentIdMap exBenchQueries).accuracy = 1 / 2 ∧
    (runBenchmarkMetrics exContentIdMap exBenchQueries).accuracy ≠
      ((runBenchmarkMetrics exContentIdMap exBenchQueries).correct_retrievals : ℚ) /
        ((exBenchQueries.filter (fun q => q.search.isSome)).length : ℚ) ∧
    testRetrievalQuality 100 exEvalQueries = .error "retrieval raised" := by
  have hcor : (runBenchmarkMetrics exContentIdMap exBenchQueries).correct_retrievals
      = 1 := by decide
  have hacc : (runBenchmarkMetrics exContentIdMap exBenchQueries).accuracy =
      ((1 : Nat) : ℚ) / ((2 : Nat) : ℚ) := by
    show (if (2 : Nat) = 0 then (0 : ℚ)
      else ((runBenchmarkMetrics exContentIdMap exBenchQueries).correct_retrievals : ℚ) /
        ((2 : Nat) : ℚ)) = ((1 : Nat) : ℚ) / ((2 : Nat) : ℚ)
    rw [if_neg (by decide), hcor]
  refine ⟨by decide, hcor, by decide, ?_, ?_, rfl⟩
  · rw [hacc]
    norm_num
  · rw [hacc]
    have hfil : ((exBenchQueries.filter (fun q => q.search.isSome)).length : ℚ)
        = ((1 : Nat) : ℚ) := by norm_cast
    rw [hfil, hcor]
    norm_num

/--
Claim C1, amended. In the embedding benchmark a per-question retrieval error is
caught and logged and the run continues; the errored question contributes to no
accumulator — it is absent from the per-question results and from both the
numerator and denominator of MRR — but `accuracy` and `keyword_accuracy` still
divide by the `total_questions` count fixed before the loop, so the errored
question remains in their denominators (only their numerators exclude it).  In
the chunking-quality experiment there is no per-question error handling: the
evaluation returns a report exactly when every question's retrieval succeeded,
and a single raising retrieval aborts the whole run.
-/
theorem retrieval_error_accounting :
    (∀ (cmap : String → Option Nat) (qs : List BenchQuery),
      (runBenchmarkMetrics cmap qs).total_questions = qs.length ∧
      (runBenchmarkMetrics cmap qs).results.length =
        (qs.filter (fun q => q.search.isSome)).length ∧
      (runBenchmarkMetrics cmap qs).accuracy = (if qs.length = 0 then 0
        else ((runBenchmarkMetrics cmap qs).correct_retrievals : ℚ) /
          (qs.length : ℚ)) ∧
      (runBenchmarkMetrics cmap qs).keyword_accuracy = (if qs.length = 0 then 0
        else ((runBenchmarkMetrics cmap qs).keyword_matches : ℚ) /
          (qs.length : ℚ)) ∧
      (runBenchmarkMetrics cmap qs).mrr =
        (if (qs.filter (fun q => q.search.isSome)).length = 0 then 0
        else (qs.filterMap (fun q => q.search.map (fun c =>
            (benchEvalQuestion cmap q.target_id q.keywords c).2))).sum /
          ((qs.filter (fun q => q.search.isSome)).length : ℚ))) ∧
    (∀ (cs : Nat) (qs : List EvalQuery),
      (testRetrievalQuality cs qs).isOk = true ↔
        ∀ q ∈ qs, q.retrieval.isSome = true) := by
  constructor
  · intro cmap qs
    refine ⟨rfl, ?_, rfl, rfl, ?_⟩
    · show ((qs.filterMap (fun q => q.search.map
          (benchEvalQuestion cmap q.target_id q.keywords))).map Prod.fst).length =
        (qs.filter (fun q => q.search.isSome)).length
      rw [List.length_map]
      exact filterMap_optMap_length qs (fun q => q.search)
        (fun q => benchEvalQuestion cmap q.target_id q.keywords)
    · show (if ((qs.filterMap (fun q => q.search.map
          (benchEvalQuestion cmap q.target_id q.keywords))).map Prod.snd).isEmpty
            = true then (0 : ℚ)
          else ((qs.filterMap (fun q => q.search.map
            (benchEvalQuestion cmap q.target_id q.keywords))).map Prod.snd).sum /
            (((qs.filterMap (fun q => q.search.map
              (benchEvalQuestion cmap q.target_id q.keywords))).map Prod.snd).length
              : ℚ)) = _
      rw [filterMap_optMap_snd qs (fun q => q.search)
        (fun q => benchEvalQuestion cmap q.target_id q.keywords)]
      have hlen : (qs.filterMap (fun q => q.search.map (fun c =>
          (benchEvalQuestion cmap q.target_id q.keywords c).2))).length =
          (qs.filter (fun q => q.search.isSome)).length :=
        filterMap_optMap_length qs (fun q => q.search)
          (fun q c => (benchEvalQuestion cmap q.target_id q.keywords c).2)
      by_cases h0 : (qs.filter (fun q => q.search.isSome)).length = 0
      · rw [if_pos h0, if_pos]
        rw [List.isEmpty_iff, ← List.length_eq_zero, hlen]
        exact h0
      · rw [if_neg h0, if_neg, hlen]
        rw [List.isEmpty_iff, ← List.length_eq_zero, hlen]
        exact h0
  · intro cs qs
    rw [testRetrievalQuality, isOk_exceptMap]
    exact evalLoop_isOk_iff qs

/-- Ten sampled chunks with distinct identifiers 1..10. -/
def exChunks : List SampledChunk :=
  (List.range 10).map (fun i => ⟨i + 1, "content", "doc"⟩)

/-- An LLM stub that fails (network error or unparseable response) on exactly
the chunks with id 3 and id 7 and succeeds elsewhere. -/
def exLLM : SampledChunk → Option QAPair :=
  fun c => if c.id = 3 ∨ c.id = 7 then none else some ⟨"q", "a", ["k"]⟩

/-- Feeding a ground-truth item to the evaluator as a query (the retrieval
outcome is irrelevant to the `total_questions` field). -/
def exToQuery : GTItem → EvalQuery :=
  fun it => ⟨it.chunk_id, it.keywords, some []⟩

/--
Claim C8. For a batch of `n` sampled chunks, if the LLM call fails for `f` of
them, the output contains exactly `n - f` items, every output item comes from a
successful chunk (failed chunks are absent), the failures are only tallied, and
the batch operation itself is total; feeding the output to the evaluator gives
`total_questions = n - f` — concretely, 10 sampled chunks with 2 failures yield
exactly 8 items.
-/
theorem ground_truth_partial_failure :
    (∀ (llm : SampledChunk → Option QAPair) (chunks : List SampledChunk),
      (generateGroundTruths llm chunks).1 =
        chunks.filterMap (generateSingleGroundTruth llm) ∧
      (generateGroundTruths llm chunks).2 =
        (chunks.filter (fun c => (llm c).isNone)).length ∧
      (generateGroundTruths llm chunks).1.length +
        (generateGroundTruths llm chunks).2 = chunks.length ∧
      (∀ item ∈ (generateGroundTruths llm chunks).1,
        ∃ c ∈ chunks, generateSingleGroundTruth llm c = some item)) ∧
    (∀ (cs : Nat) (llm : SampledChunk → Option QAPair) (chunks : List SampledChunk)
        (toQuery : GTItem → EvalQuery) (report : EvalReport),
      testRetrievalQuality cs ((generateGroundTruths llm chunks).1.map toQuery) =
        .ok report →
      report.total_questions =
        chunks.length - (chunks.filter (fun c => (llm c).isNone)).length) ∧
    ((generateGroundTruths exLLM exChunks).1.length = 8 ∧
      (generateGroundTruths exLLM exChunks).2 = 2 ∧
      exChunks.length = 10) := by
  have hmain : ∀ (llm : SampledChunk → Option QAPair) (chunks : List SampledChunk),
      (generateGroundTruths llm chunks).1 =
        chunks.filterMap (generateSingleGroundTruth llm) ∧
      (generateGroundTruths llm chunks).2 =
        (chunks.filter (fun c => (llm c).isNone)).length := by
    intro llm chunks
    induction chunks with
    | nil => exact ⟨rfl, rfl⟩
    | cons c rest ih =>
      simp only [generateGroundTruths, List.filterMap_cons, List.filter_cons]
      cases hc : llm c with
      | some qa =>
        have hs : generateSingleGroundTruth llm c =
            some { chunk_id := c.id, chunk_content := c.content,
                   document_title := c.document_title, question := qa.question,
                   expected_answer := qa.expected_answer, keywords := qa.keywords } := by
          unfold generateSingleGroundTruth
          rw [hc]
          rfl
        simp only [hs, hc, Option.isNone_some, Bool.false_eq_true, if_false,
          ih.1, ih.2]
        exact ⟨trivial, trivial⟩
      | none =>
        have hs : generateSingleGroundTruth llm c = none := by
          unfold generateSingleGroundTruth
          rw [hc]
          rfl
        simp only [hs, hc, Option.isNone_none, if_true, List.length_cons,
          ih.1, ih.2]
        exact ⟨trivial, trivial⟩
  have hsum : ∀ (llm : SampledChunk → Option QAPair) (chunks : List SampledChunk),
      (generateGroundTruths llm chunks).1.length +
        (generateGroundTruths llm chunks).2 = chunks.length := by
    intro llm chunks
    induction chunks with
    | nil => rfl
    | cons c rest ih =>
      simp only [generateGroundTruths]
      cases hc : generateSingleGroundTruth llm c with
      | some item =>
        simp only [hc]
        rw [List.length_cons, List.length_cons]
        omega
      | none =>
        simp only [hc]
        rw [List.length_cons]
        omega
  refine ⟨?_, ?_, ?_⟩
  · intro llm chunks
    refine ⟨(hmain llm chunks).1, (hmain llm chunks).2, hsum llm chunks, ?_⟩
    intro item hitem
    rw [(hmain llm chunks).1] at hitem
    obtain ⟨c, hc, hgen⟩ := List.mem_filterMap.mp hitem
    exact ⟨c, hc, hgen⟩
  · intro cs llm chunks toQuery report h
    obtain ⟨ev, -, -, htot, -, -, -, -, -⟩ := testRetrievalQuality_ok_elim cs _ report h
    rw [htot, List.length_map]
    have := hsum llm chunks
    have := (hmain llm chunks).2
    omega
  · refine ⟨by decide, by decide, by decide⟩

/-- Witness for C8: the 10-chunk, 2-failure batch fed to the evaluator
reports `total_questions = 8`. -/
theorem ground_truth_partial_failure_witness :
    (testRetrievalQuality 150 ((generateGroundTruths exLLM exChunks).1.map exToQuery)).map
      EvalReport.total_questions = .ok 8 := by
  obtain ⟨r, hr⟩ : ∃ r, testRetrievalQuality 150
      ((generateGroundTruths exLLM exChunks).1.map exToQuery) = .ok r :=
    ⟨_, rfl⟩
  have htot := ground_truth_partial_failure.2.1 150 exLLM exChunks exToQuery r hr
  rw [hr]
  simp only [Except.map]
  rw [htot]
  exact congrArg Except.ok (by decide)

/-- The sentinel text `_update_table_schema` embeds to measure the model
dimension (`test_vec = service.embed_text("test")`). -/
def dimensionProbe : String := "test"

/-- The mutable `document_chunks` store: the vector width declared by the
current `CREATE TABLE`, the stored rows, and the `SERIAL` id counter. -/
structure ChunkStore where
  dim : Nat
  rows : List ChunkRow
  next_id : Nat
deriving DecidableEq

/-- An `INSERT` into the pgvector column `embedding vector(dim)`: the database
rejects a vector whose length differs from the declared dimension; a conforming
insert appends the row and bumps the serial counter. -/
def insertChunk (s : ChunkStore) (doc_id idx : Nat) (content : String)
    (emb : List ℚ) : Option ChunkStore :=
  if emb.length = s.dim then
    some { s with
      rows := s.rows ++ [⟨s.next_id, doc_id, idx, content, emb⟩]
      next_id := s.next_id + 1 }
  else none

/-- Schema migration `EmbeddingBenchmark._update_table_schema`
(src/api/experiments/experiment_embedding_quality.py, lines 81-113): embed the
sentinel, measure the vector length, then `DROP TABLE IF EXISTS` and
`CREATE TABLE` with `vector(dim)` — afterwards the store is empty and declares
the newly measured dimension. -/
def updateTableSchema (embed : String → List ℚ) (_s : ChunkStore) : ChunkStore :=
  { dim := (embed dimensionProbe).length, rows := [], next_id := 1 }

/-- One iteration of `_index_chunks` (lines 148-168): embed the content and
insert it; a failed insert is caught, rolled back and the chunk skipped. -/
def indexStep (embed : String → List ℚ) (doc_id idx : Nat) (content : String)
    (s : ChunkStore) : ChunkStore :=
  match insertChunk s doc_id idx content (embed content) with
  | some s2 => s2
  | none => s

/-- Running `_index_chunks` over a content list, returning every intermediate store
state (one after each insertion attempt) together with the final store. -/
def indexStates (embed : String → List ℚ) (doc_id : Nat) :
    List String → Nat → ChunkStore → List ChunkStore × ChunkStore
  | [], _, s => ([], s)
  | content :: rest, idx, s =>
    let s2 := indexStep embed doc_id idx content s
    let tail := indexStates embed doc_id rest (idx + 1) s2
    (s2 :: tail.1, tail.2)

/-- One benchmark cell of `_run_benchmark` (lines 183-190): the chunk table is
dropped and recreated with the newly measured width **before** the chunks are
embedded and inserted under the new provider.  Returns every store state from
the recreation onwards, and the final store. -/
def runBenchmarkStates (embed : String → List ℚ) (doc_id : Nat)
    (contents : List String) (s : ChunkStore) : List ChunkStore × ChunkStore :=
  let s1 := updateTableSchema embed s
  let tail := indexStates embed doc_id contents 0 s1
  (s1 :: tail.1, tail.2)

/-- The benchmark sweep over the configured providers (the loop of `run`,
lines 304-321): each provider swap re-runs `_update_table_schema` and then
re-indexes, threading the store through the cells. -/
def benchSweepStates (doc_id : Nat) (contents : List String) :
    List (String → List ℚ) → ChunkStore → List ChunkStore
  | [], _ => []
  | embed :: ps, s =>
    let cell := runBenchmarkStates embed doc_id contents s
    cell.1 ++ benchSweepStates doc_id contents ps cell.2

/-- The store invariant: every stored row's embedding vector has length equal
to the store's currently declared dimension. -/
def storeInvariant (s : ChunkStore) : Prop :=
  ∀ r ∈ s.rows, r.embedding.length = s.dim

/-- An insertion attempt never changes the declared dimension. -/
theorem indexStep_dim (embed : String → List ℚ) (doc_id idx : Nat)
    (content : String) (s : ChunkStore) :
    (indexStep embed doc_id idx content s).dim = s.dim := by
  unfold indexStep insertChunk
  by_cases h : (embed content).length = s.dim
  · rw [if_pos h]
  · rw [if_neg h]

/-- An insertion attempt preserves the store invariant. -/
theorem indexStep_invariant (embed : String → List ℚ) (doc_id idx : Nat)
    (content : String) (s : ChunkStore) (hs : storeInvariant s) :
    storeInvariant (indexStep embed doc_id idx content s) := by
  unfold indexStep insertChunk
  by_cases h : (embed content).length = s.dim
  · rw [if_pos h]
    intro r hr
    rcases List.mem_append.mp hr with hr | hr
    · exact hs r hr
    · rw [List.mem_singleton] at hr
      subst hr
      exact h
  · rw [if_neg h]
    exact hs

/-- Every state reached during indexing satisfies the invariant, the final
state included, and the declared dimension never changes. -/
theorem indexStates_invariant (embed : String → List ℚ) (doc_id : Nat)
    (contents : List String) (idx : Nat) (s : ChunkStore)
    (hs : storeInvariant s) :
    (∀ st ∈ (indexStates embed doc_id contents idx s).1, storeInvariant st) ∧
    storeInvariant (indexStates embed doc_id contents idx s).2 ∧
    (indexStates embed doc_id contents idx s).2.dim = s.dim := by
  induction contents generalizing idx s with
  | nil => exact ⟨by simp [indexStates], hs, rfl⟩
  | cons content rest ih =>
    have h2 := indexStep_invariant embed doc_id idx content s hs
    obtain ⟨hall, hfin, hdim⟩ := ih (idx + 1) (indexStep embed doc_id idx content s) h2
    refine ⟨?_, hfin, ?_⟩
    · intro st hst
      simp only [indexStates] at hst
      rcases List.mem_cons.mp hst with hst | hst
      · subst hst; exact h2
      · exact hall st hst
    · show (indexStates embed doc_id rest (idx + 1)
          (indexStep embed doc_id idx content s)).2.dim = s.dim
      rw [hdim, indexStep_dim]

/-- Under a fixed-width provider no insertion is rejected: indexing stores every
chunk and the dimension stays at the measured width. -/
theorem indexStates_full (embed : String → List ℚ) (w doc_id : Nat)
    (contents : List String) (idx : Nat) (s : ChunkStore)
    (hw : ∀ t, (embed t).length = w) (hd : s.dim = w) :
    (indexStates embed doc_id contents idx s).2.rows.length =
      s.rows.length + contents.length := by
  induction contents generalizing idx s with
  | nil => simp [indexStates]
  | cons content rest ih =>
    have hstep : indexStep embed doc_id idx content s =
        { s with
          rows := s.rows ++ [⟨s.next_id, doc_id, idx, content, embed content⟩]
          next_id := s.next_id + 1 } := by
      unfold indexStep insertChunk
      rw [if_pos (by rw [hw content, hd])]
    show (indexStates embed doc_id rest (idx + 1)
        (indexStep embed doc_id idx content s)).2.rows.length = _
    rw [ih (idx + 1) (indexStep embed doc_id idx content s)
      (by rw [hstep]; exact hd)]
    rw [hstep]
    simp only [List.length_append, List.length_cons, List.length_nil]
    omega

/--
Claim C2. Whenever the active embedding provider is swapped during a benchmark
sweep, the chunk table is dropped and recreated with the newly measured vector
width before any chunk embedding is written under the new provider (second
conjunct: the first store state of every cell is the empty table declaring the
measured width), so that at every point of the sweep every stored chunk's
embedding vector has length equal to the store's currently declared dimension
(first conjunct) — vectors of different widths never coexist.  Third conjunct:
under a fixed-width provider the recreated schema matches every embedding, so
no insert is rejected and all chunks are stored.
-/
theorem embedding_swap_schema_invariant :
    (∀ (doc_id : Nat) (contents : List String)
        (providers : List (String → List ℚ)) (s : ChunkStore),
      ∀ st ∈ benchSweepStates doc_id contents providers s, storeInvariant st) ∧
    (∀ (embed : String → List ℚ) (doc_id : Nat) (contents : List String)
        (s : ChunkStore),
      (runBenchmarkStates embed doc_id contents s).1.head? =
        some (updateTableSchema embed s) ∧
      (updateTableSchema embed s).rows = [] ∧
      (updateTableSchema embed s).dim = (embed dimensionProbe).length) ∧
    (∀ (embed : String → List ℚ) (w doc_id : Nat) (contents : List String)
        (s : ChunkStore),
      (∀ t, (embed t).length = w) →
      (runBenchmarkStates embed doc_id contents s).2.rows.length =
        contents.length) := by
  refine ⟨?_, ?_, ?_⟩
  · intro doc_id contents providers
    induction providers with
    | nil => intro s st hst; exact absurd hst (by simp [benchSweepStates])
    | cons embed ps ih =>
      intro s st hst
      simp only [benchSweepStates] at hst
      have hempty : storeInvariant (updateTableSchema embed s) := by
        intro r hr
        exact absurd hr (by simp [updateTableSchema])
      obtain ⟨hall, hfin, -⟩ := indexStates_invariant embed doc_id contents 0
        (updateTableSchema embed s) hempty
      rcases List.mem_append.mp hst with hst | hst
      · simp only [runBenchmarkStates] at hst
        rcases List.mem_cons.mp hst with hst | hst
        · subst hst; exact hempty
        · exact hall st hst
      · exact ih _ st hst
  · intro embed doc_id contents s
    exact ⟨rfl, rfl, rfl⟩
  · intro embed w doc_id contents s hw
    show (indexStates embed doc_id contents 0 (updateTableSchema embed s)).2.rows.length = _
    rw [indexStates_full embed w doc_id contents 0 (updateTableSchema embed s) hw
      (by show (embed dimensionProbe).length = w; exact hw dimensionProbe)]
    simp [updateTableSchema]

/-- Witness for C2: a two-provider sweep (widths 2 then 3) over two chunks;
the invariant holds at the final state and the fixed-width providers store both
chunks. -/
theorem embedding_swap_schema_invariant_witness :
    (∀ st ∈ benchSweepStates 1 ["a", "b"]
      [fun _ => [0, 0], fun _ => [0, 0, 0]] ⟨384, [], 1⟩, storeInvariant st) ∧
    (runBenchmarkStates (fun _ => [0, 0, 0]) 1 ["a", "b"] ⟨384, [], 1⟩).2.rows.length = 2 :=
  ⟨embedding_swap_schema_invariant.1 1 ["a", "b"]
      [fun _ => [0, 0], fun _ => [0, 0, 0]] ⟨384, [], 1⟩,
    embedding_swap_schema_invariant.2.2 (fun _ => [0, 0, 0]) 3 1 ["a", "b"]
      ⟨384, [], 1⟩ (fun _ => rfl)⟩

/-- A constructed TEI provider: the backend it talks to and the dimension it
reports.  The backend (`POST /embed`) is a function to `Option`: `none` models
a connection failure, timeout or non-2xx status; `some emb` the first embedding
of the response body. -/
structure TEIProvider where
  backend : String → Option (List ℚ)
  dimension : Nat

/-- Construction `TEIProvider.__init__` + `_validate_connection`
(src/api/services/embedding_service.py, lines 34-52): the 384 default is
overwritten by embedding the sentinel `"connection test"` and measuring the
vector length; any failure raises `ConnectionError` before the object is
returned to the caller, so no partially initialized provider escapes. -/
def mkTEIProvider (backend : String → Option (List ℚ)) :
    Except String TEIProvider :=
  match backend "connection test" with
  | none => .error "Could not connect to TEI"
  | some emb => .ok { backend := backend, dimension := emb.length }

/-- Accessor `TEIProvider.get_dimension` (lines 72-73). -/
def TEIProvider.get_dimension (p : TEIProvider) : Nat := p.dimension

/-- An `/api/embeddings` response: HTTP 404 (model not pulled), or a JSON body
whose `embedding` field may be absent. -/
inductive OllamaResp where
  | notFound
  | body (embedding : Option (List ℚ))
deriving DecidableEq

/-- An Ollama backend: reachability of `GET /`, and the embeddings endpoint
(`none` models the request itself raising). -/
structure OllamaBackend where
  reachable : Bool
  embeddings : String → Option OllamaResp

/-- A constructed Ollama provider. -/
structure OllamaProvider where
  backend : OllamaBackend
  model : String
  dimension : Nat

/-- Construction `OllamaProvider.__init__` + `_validate_connection` (lines 80-116): check
reachability, probe the model by embedding the sentinel `"test"`; a 404 raises
(`Model not found`), a missing `embedding` field raises (`len(None)` is a
`TypeError`, re-wrapped), and any request error raises — all before the object
is returned; on success the 384 default is overwritten with the measured
length. -/
def mkOllamaProvider (b : OllamaBackend) (model : String) :
    Except String OllamaProvider :=
  if b.reachable = false then .error "Could not connect to Ollama"
  else
    match b.embeddings "test" with
    | none => .error "Ollama Error"
    | some .notFound => .error "Model not found"
    | some (.body none) => .error "Ollama Error"
    | some (.body (some emb)) =>
      .ok { backend := b, model := model, dimension := emb.length }

/-- Accessor `OllamaProvider.get_dimension` (lines 141-142). -/
def OllamaProvider.get_dimension (p : OllamaProvider) : Nat := p.dimension

/--
Claim C9. For both embedding providers, construction either succeeds — in which
case the reported dimension equals the length of the vector obtained by
embedding the sentinel probe string, measured empirically — or the backend is
unreachable / the model cannot be resolved / the response is malformed, in
which case construction returns a fatal error and no provider value exists at
all (the `Except` never holds a partially initialized provider).
-/
theorem provider_construction_probe :
    (∀ (backend : String → Option (List ℚ)),
      ((mkTEIProvider backend).isOk = true ↔
        (backend "connection test").isSome = true) ∧
      (∀ p, mkTEIProvider backend = .ok p →
        some p.get_dimension = (backend "connection test").map List.length)) ∧
    (∀ (b : OllamaBackend) (model : String),
      ((mkOllamaProvider b model).isOk = true ↔
        (b.reachable = true ∧
          ∃ emb, b.embeddings "test" = some (.body (some emb)))) ∧
      (∀ p, mkOllamaProvider b model = .ok p →
        ∃ emb, b.embeddings "test" = some (.body (some emb)) ∧
          p.get_dimension = emb.length)) := by
  constructor
  · intro backend
    constructor
    · unfold mkTEIProvider
      cases hb : backend "connection test" with
      | none =>
        exact ⟨fun h => absurd h (by simp [Except.isOk, Except.toBool]),
          fun h => absurd h (by simp)⟩
      | some emb =>
        exact ⟨fun _ => rfl, fun _ => rfl⟩
    · intro p hp
      unfold mkTEIProvider at hp
      cases hb : backend "connection test" with
      | none => rw [hb] at hp; exact absurd hp (by simp)
      | some emb =>
        rw [hb] at hp
        have hinj := Except.ok.inj hp
        rw [← hinj]
        rfl
  · intro b model
    constructor
    · unfold mkOllamaProvider
      cases hreach : b.reachable with
      | false =>
        rw [if_pos rfl]
        exact ⟨fun h => absurd h (by simp [Except.isOk, Except.toBool]),
          fun h => absurd h.1 (by simp)⟩
      | true =>
        rw [if_neg (by simp)]
        cases hr : b.embeddings "test" with
        | none =>
          exact ⟨fun h => absurd h (by simp [Except.isOk, Except.toBool]),
            fun h => absurd h.2 (by simp)⟩
        | some resp =>
          cases resp with
          | notFound =>
            exact ⟨fun h => absurd h (by simp [Except.isOk, Except.toBool]),
              fun h => absurd h.2 (by simp)⟩
          | body ob =>
            cases ob with
            | none =>
              exact ⟨fun h => absurd h (by simp [Except.isOk, Except.toBool]),
                fun h => absurd h.2 (by simp)⟩
            | some emb =>
              exact ⟨fun _ => ⟨rfl, emb, rfl⟩, fun _ => rfl⟩
    · intro p hp
      unfold mkOllamaProvider at hp
      cases hreach : b.reachable with
      | false =>
        rw [hreach, if_pos rfl] at hp
        exact absurd hp (by simp)
      | true =>
        rw [hreach, if_neg (by simp)] at hp
        cases hr : b.embeddings "test" with
        | none => rw [hr] at hp; exact absurd hp (by simp)
        | some resp =>
          rw [hr] at hp
          cases resp with
          | notFound => exact absurd hp (by simp)
          | body ob =>
            cases ob with
            | none => exact absurd hp (by simp)
            | some emb =>
              refine ⟨emb, rfl, ?_⟩
              have hinj := Except.ok.inj hp
              rw [← hinj]
              rfl

/-- Witness for C9: a reachable TEI backend answering a 3-vector yields a
provider reporting dimension 3 (not the configured default 384); an Ollama
backend answering a 4-vector yields dimension 4; an unreachable TEI backend
yields no provider. -/
theorem provider_construction_probe_witness :
    (mkTEIProvider (fun _ => some [0, 1, 2])).map TEIProvider.get_dimension =
      .ok 3 ∧
    (mkOllamaProvider ⟨true, fun _ => some (.body (some [0, 1, 2, 3]))⟩
      "nomic-embed-text").map OllamaProvider.get_dimension = .ok 4 ∧
    (mkTEIProvider (fun _ => none)).isOk = false := by
  obtain ⟨p, hp⟩ : ∃ p, mkTEIProvider (fun _ => some ([0, 1, 2] : List ℚ)) = .ok p :=
    ⟨_, rfl⟩
  obtain ⟨q, hq⟩ : ∃ q, mkOllamaProvider
      ⟨true, fun _ => some (.body (some ([0, 1, 2, 3] : List ℚ)))⟩
      "nomic-embed-text" = .ok q := ⟨_, rfl⟩
  have hd := (provider_construction_probe.1 (fun _ => some [0, 1, 2])).2 p hp
  obtain ⟨emb, hemb, hqd⟩ := (provider_construction_probe.2
    ⟨true, fun _ => some (.body (some [0, 1, 2, 3]))⟩ "nomic-embed-text").2 q hq
  refine ⟨?_, ?_, ?_⟩
  · rw [hp]
    simp only [Except.map]
    have : p.get_dimension = 3 := by
      have h3 := hd
      simp only [Option.map_some] at h3
      exact Option.some.inj h3
    rw [this]
  · rw [hq]
    simp only [Except.map]
    have hlen : emb = [0, 1, 2, 3] := by
      have := Option.some.inj hemb
      have := OllamaResp.body.inj this
      exact (Option.some.inj this).symm
    rw [hqd, hlen]
    rfl
  · have hnot := (provider_construction_probe.1 (fun _ => none)).1
    rw [← Bool.not_eq_true]
    intro hc
    have := hnot.mp hc
    exact absurd this (by simp)

/-- Python `str.strip()` with no argument: remove leading and trailing
whitespace characters. -/
def pyStrip (s : List Char) : List Char :=
  ((s.dropWhile Char.isWhitespace).reverse.dropWhile Char.isWhitespace).reverse

/-- Validation in `EmbeddingService.embed_text` (embedding_service.py, lines 161-164):
`if not text or not text.strip(): raise ValueError("Text cannot be empty")`,
otherwise delegate to the configured provider. -/
def serviceEmbedText (provider_embed : String → List ℚ) (text : String) :
    Except String (List ℚ) :=
  if text.data = [] ∨ pyStrip text.data = [] then .error "Text cannot be empty"
  else .ok (provider_embed text)

/-- Validation in `EmbeddingService.embed_batch` (lines 166-169):
`if not texts: raise ValueError("Texts list cannot be empty")`, otherwise
delegate to the configured provider. -/
def serviceEmbedBatch (provider_embed_batch : List String → List (List ℚ))
    (texts : List String) : Except String (List (List ℚ)) :=
  if texts = [] then .error "Texts list cannot be empty"
  else .ok (provider_embed_batch texts)

/--
Claim C10. The embedding service rejects degenerate requests before contacting
any backend: `embed_text` raises `ValueError` when the text is empty or
consists only of whitespace (first conjunct; the second shows the outcome is
the same for every provider, i.e. independent of any backend), and
`embed_batch` raises `ValueError` on an empty list; a non-degenerate text is
delegated to the provider unchanged.
-/
theorem embed_input_validation :
    (∀ (provider_embed : String → List ℚ) (text : String),
      (∀ c ∈ text.data, Char.isWhitespace c) →
      serviceEmbedText provider_embed text = .error "Text cannot be empty") ∧
    (∀ (p1 p2 : String → List ℚ) (text : String),
      (∀ c ∈ text.data, Char.isWhitespace c) →
      serviceEmbedText p1 text = serviceEmbedText p2 text) ∧
    (∀ (provider_embed_batch : List String → List (List ℚ)),
      serviceEmbedBatch provider_embed_batch [] =
        .error "Texts list cannot be empty") ∧
    (∀ (provider_embed : String → List ℚ) (text : String),
      ¬(text.data = [] ∨ pyStrip text.data = []) →
      serviceEmbedText provider_embed text = .ok (provider_embed text)) := by
  have hstrip : ∀ (text : String), (∀ c ∈ text.data, Char.isWhitespace c) →
      pyStrip text.data = [] := by
    intro text hws
    unfold pyStrip
    rw [List.dropWhile_eq_nil_iff.mpr hws]
    rfl
  refine ⟨?_, ?_, ?_, ?_⟩
  · intro pe text hws
    unfold serviceEmbedText
    rw [if_pos (Or.inr (hstrip text hws))]
  · intro p1 p2 text hws
    unfold serviceEmbedText
    rw [if_pos (Or.inr (hstrip text hws)), if_pos (Or.inr (hstrip text hws))]
  · intro pb
    unfold serviceEmbedBatch
    rw [if_pos rfl]
  · intro pe text hdeg
    unfold serviceEmbedText
    rw [if_neg hdeg]

/-- Witness for C10: the all-whitespace text `"  "` is rejected identically
under two distinct providers, the empty batch is rejected, and a normal text is
delegated. -/
theorem embed_input_validation_witness :
    serviceEmbedText (fun _ => [1]) "  " = .error "Text cannot be empty" ∧
    serviceEmbedText (fun _ => [1]) "  " = serviceEmbedText (fun _ => [2]) "  " ∧
    serviceEmbedBatch (fun ts => ts.map (fun _ => [1])) [] =
      .error "Texts list cannot be empty" ∧
    serviceEmbedText (fun _ => [1]) "hello" = .ok [1] :=
  ⟨embed_input_validation.1 (fun _ => [1]) "  " (by decide),
    embed_input_validation.2.1 (fun _ => [1]) (fun _ => [2]) "  " (by decide),
    embed_input_validation.2.2.1 (fun ts => ts.map (fun _ => [1])),
    embed_input_validation.2.2.2 (fun _ => [1]) "hello" (by decide)⟩

end Orbis
